import Mathlib

/-!
SasGPT chat front end (`static/script.js`): citation linker, citation history, embedding
toggle and chat submission.

A shallow embedding of the browser script.  JavaScript strings are modelled as Lean strings
(character lists inside the text scanners, UTF-16 code units where the script counts or cuts
by position), the DOM nodes the script builds are modelled as plain records, and the two asynchronous functions are modelled by the code that runs before
the `await` and the code that runs after it, the awaited network outcome being an input.
-/

namespace SasGPT

/-! ## Data model -/

/-- A citation record of the chat API: `{ id, url, page, text }`. -/
structure Citation where
  id : String
  url : String
  page : Nat
  text : String
deriving DecidableEq, Repr

/-! ## Citation linker: `processCitationsInText` -/

/-- Consume the literal characters `p` at the head of the input, if they are there. -/
def stripChars : List Char → List Char → Option (List Char)
  | [], s => some s
  | _ :: _, [] => none
  | p :: ps, c :: cs => if p = c then stripChars ps cs else none

/-- The regex item `c?` for a literal character `c`: consumes one `c` when it is next. -/
def optChar (c : Char) : List Char → List Char
  | [] => []
  | d :: t => if d = c then t else d :: t

/-- The part `\{?(\d+)\}?\]` of the pattern `/\[citation\{?(\d+)\}?\]/`: the captured
digits and the input left after the match.  Every item of the pattern is deterministic
(a greedy `\{?`, `\d+` or `\}?` that gave characters back could not be followed by the
next item), so no backtracking is modelled. -/
def matchTail (s1 : List Char) : Option (List Char × List Char) :=
  let s2 := optChar '\x7b' s1
  let ds := s2.takeWhile Char.isDigit
  if ds = [] then none
  else
    match optChar '\x7d' (s2.dropWhile Char.isDigit) with
    | [] => none
    | e :: rest => if e = ']' then some (ds, rest) else none

/-- One attempt of the whole pattern at the head of the input: the literal `[citation`,
then `matchTail`. -/
def matchMarker (s : List Char) : Option (List Char × List Char) :=
  match stripChars "[citation".toList s with
  | none => none
  | some s1 => matchTail s1

/-- The value of `parseInt` on a string of decimal digits, as an exact integer.  (The
number `parseInt` returns is exact below `2^53` and at least `2^53` otherwise, so as an
index into an array, whose length is below `2^32`, it selects the same element or none.) -/
def parseInt (ds : List Char) : Nat :=
  ds.foldl (fun n d => 10 * n + (d.toNat - 48)) 0

/-- Array indexing `xs[i]`: `undefined` (here `none`) outside `0 .. length - 1`. -/
def arrayGet {α : Type} (xs : List α) (i : Int) : Option α :=
  if i < 0 then none else xs.get? i.toNat

/-- The anchor element the replacement callback returns, as HTML text:
`<a href="${url}" class="citation-ref" data-citation-id="${id}" target="_blank">[${label}]</a>`. -/
def anchor (href id label : String) : String :=
  "<a href=\"" ++ href ++ "\" class=\"citation-ref\" data-citation-id=\"" ++ id
    ++ "\" target=\"_blank\">[" ++ label ++ "]</a>"

/-- The callback of `replace`: `match` is the matched text, `citationNum` the capture. -/
def replacement (citations : List Citation) (matched citationNum : List Char) : List Char :=
  match arrayGet citations ((parseInt citationNum : Int) - 1) with
  | some citation => (anchor citation.url citation.id (String.mk citationNum)).toList
  | none => matched

/-- The global `replace`: scan left to right; at a match emit the callback's result and go on
after the match, otherwise copy one character.  The first argument bounds the number of
iterations; the length of the text is always enough (`replaceLoop_fuel`). -/
def replaceLoop (citations : List Citation) : Nat → List Char → List Char
  | 0, s => s
  | _ + 1, [] => []
  | fuel + 1, c :: t =>
    match matchMarker (c :: t) with
    | none => c :: replaceLoop citations fuel t
    | some (ds, rest) =>
      replacement citations ((c :: t).take ((c :: t).length - rest.length)) ds
        ++ replaceLoop citations fuel rest

/-- The function `processCitationsInText(text, citations)` of the script. -/
def processCitationsInText (text : String) (citations : List Citation) : String :=
  String.mk (replaceLoop citations text.length text.toList)

/-- The two marker spellings named by the specification: `[citationN]` and `[citation{N}]`. -/
def marker (braced : Bool) (N : String) : String :=
  if braced then "[citation\x7b" ++ N ++ "\x7d]" else "[citation" ++ N ++ "]"

/-- Every text the pattern accepts: the opening and the closing brace are each optional,
so the pattern also takes `[citation{N]` and `[citationN}]`. -/
def patternText (openBrace closeBrace : Bool) (N : String) : String :=
  "[citation" ++ (if openBrace then "\x7b" else "") ++ N
    ++ (if closeBrace then "\x7d" else "") ++ "]"

/-- A digit string: one or more of the characters `0` .. `9`. -/
def IsDigits (N : String) : Prop :=
  N.toList ≠ [] ∧ ∀ c ∈ N.toList, c.isDigit = true

instance (N : String) : Decidable (IsDigits N) :=
  inferInstanceAs (Decidable (N.toList ≠ [] ∧ ∀ c ∈ N.toList, c.isDigit = true))

/-- The linker on a character list, with the iteration bound the script's call uses. -/
def linkChars (citations : List Citation) (s : List Char) : List Char :=
  replaceLoop citations s.length s

/-! ## Citation history: `renderCitationHistory` -/

/-- A history entry `{ question, answer, citations }`.  The renderer tests
`!item.citations`, so the citation array may be missing. -/
structure HistoryEntry where
  question : String
  answer : String
  citations : Option (List Citation)
deriving DecidableEq, Repr

/-- Splitting at every character that satisfies `p`: the pieces between the separators; two
separators in a row give an empty piece and the empty text gives one empty piece. -/
def splitBy (p : Char → Bool) : List Char → List (List Char)
  | [] => [[]]
  | c :: t =>
    if p c then [] :: splitBy p t
    else
      match splitBy p t with
      | [] => [[c]]
      | w :: ws => (c :: w) :: ws

/-- The method `split(' ')`: splitting at every single space character. -/
def split (sep : Char) (s : List Char) : List (List Char) :=
  splitBy (fun c => decide (c = sep)) s

/-- The method `join(' ')`. -/
def join (sep : Char) : List (List Char) → List Char
  | [] => []
  | [w] => w
  | w :: w2 :: ws => w ++ sep :: join sep (w2 :: ws)

/-- The summary line of a history entry:
`question.split(' ').slice(0, 10).join(' ') + (question.split(' ').length > 10 ? '...' : '')`. -/
def summaryText (question : String) : String :=
  String.mk (join ' ' ((split ' ' question.toList).take 10))
    ++ (if (split ' ' question.toList).length > 10 then "..." else "")

/-- The `div.citation-item` built for one citation: its id, the page of the label
`Page ${page}`, the excerpt (as UTF-16 code units) and the target of the link
`View in PDF`. -/
structure CitationItem where
  id : String
  page : Nat
  excerpt : List Nat
  href : String
deriving DecidableEq, Repr

/-- The UTF-16 code units of a character: one unit below U+10000, a surrogate pair from
there on. -/
def utf16Units (c : Char) : List Nat :=
  if c.toNat < 65536 then [c.toNat]
  else [55296 + (c.toNat - 65536) / 1024, 56320 + (c.toNat - 65536) % 1024]

/-- The UTF-16 code units of a text: what `length` counts and `substring` cuts. -/
def utf16 (s : String) : List Nat :=
  s.toList.foldr (fun c units => utf16Units c ++ units) []

/-- The excerpt `text.substring(0, 150) + (text.length > 150 ? '...' : '')`, as UTF-16 code
units (the cut may fall inside a surrogate pair). -/
def excerptOf (text : String) : List Nat :=
  (utf16 text).take 150 ++ (if (utf16 text).length > 150 then utf16 "..." else [])

/-- The element built for one citation inside `item.citations.forEach`. -/
def renderCitation (citation : Citation) : CitationItem :=
  { id := citation.id, page := citation.page, excerpt := excerptOf citation.text,
    href := citation.url }

/-- A `details.citation-history-item` element: its `open` property, the text of its
`summary` and the citation items of its `div.citations-content`. -/
structure Details where
  isOpen : Bool
  summary : String
  citations : List CitationItem
deriving DecidableEq, Repr

/-- A child of the citation panel `#citation-list`. -/
inductive PanelChild where
  | noHistory (text : String)
  | details (d : Details)
deriving DecidableEq, Repr

/-- The body of `history.forEach((item, index) => ...)` run from position `index` over the
items that are left; `len` is `history.length`. -/
def renderItems (len : Nat) : Nat → List HistoryEntry → List PanelChild
  | _, [] => []
  | index, item :: rest =>
    match item.citations with
    | none => renderItems len (index + 1) rest
    | some cs =>
      if cs.length = 0 then renderItems len (index + 1) rest
      else
        PanelChild.details
          { isOpen := decide (index = len - 1),
            summary := summaryText item.question,
            citations := cs.map renderCitation }
          :: renderItems len (index + 1) rest

/-- The assignment `citationList.innerHTML = ''`: every child of the panel is removed. -/
def clearPanel (_citationList : List PanelChild) : List PanelChild := []

/-- The function `renderCitationHistory(history)`.  The first argument is the content of the
panel before the call and the result is its content after the call; `history` is `none` for
a missing (`null`, `undefined`) argument. -/
def renderCitationHistory (citationList : List PanelChild)
    (history : Option (List HistoryEntry)) : List PanelChild :=
  let cleared : List PanelChild := clearPanel citationList
  match history with
  | none => cleared ++ [PanelChild.noHistory "Ask a question to see relevant citations."]
  | some h =>
    if h.length = 0 then
      cleared ++ [PanelChild.noHistory "Ask a question to see relevant citations."]
    else cleared ++ renderItems h.length 0 h

/-- The disclosure entries among the children of the panel. -/
def entriesOf : List PanelChild → List Details
  | [] => []
  | PanelChild.details d :: rest => d :: entriesOf rest
  | PanelChild.noHistory _ :: rest => entriesOf rest

/-- The placeholder lines among the children of the panel. -/
def placeholdersOf : List PanelChild → List String
  | [] => []
  | PanelChild.details _ :: rest => placeholdersOf rest
  | PanelChild.noHistory t :: rest => t :: placeholdersOf rest

/-- An entry has a citation list that is present and non-empty. -/
def hasCitations (item : HistoryEntry) : Bool :=
  match item.citations with
  | none => false
  | some cs => decide (cs.length ≠ 0)

/-- The citation items shown for a history entry. -/
def citationItemsOf (item : HistoryEntry) : List CitationItem :=
  match item.citations with
  | none => []
  | some cs => cs.map renderCitation

/-- White space in the sense of the language: what `trim` removes and `\s` matches. -/
def isWhiteSpace (c : Char) : Bool :=
  c.toNat ∈ [9, 10, 11, 12, 13, 32, 160, 5760, 8192, 8193, 8194, 8195, 8196, 8197, 8198,
    8199, 8200, 8201, 8202, 8232, 8233, 8239, 8287, 12288, 65279]

/-- The words of a text as the specification words them: the white-space-separated words,
that is the non-empty pieces between white space. -/
def specWords (s : List Char) : List (List Char) :=
  (splitBy isWhiteSpace s).filter (fun w => decide (w ≠ []))

/-- The summary as the specification words it: the first 10 white-space-separated words
joined by single spaces, followed by `...` if and only if there are more than 10 words. -/
def specSummary (question : String) : String :=
  String.mk (join ' ' ((specWords question.toList).take 10))
    ++ (if (specWords question.toList).length > 10 then "..." else "")

/-! ## Page state -/

/-- A label `.toggle-option` of an embedding toggle: its `dataset.value` and whether its class
list holds `active`. -/
structure ToggleOption where
  value : String
  active : Bool
deriving DecidableEq, Repr

/-- The two toggle controls `embeddingToggleDesktop` and `embeddingToggleMobile`. -/
inductive Toggle where
  | desktop
  | mobile
deriving DecidableEq, Repr

/-- The cost breakdown of a chat response.  Its formatting by `formatCost` is floating point
arithmetic (`toFixed`) and is not modelled: the record is carried as received. -/
structure Cost where
  raw : String
deriving DecidableEq, Repr

/-- A child of the chat feed `#chat-messages`: a message built by `addMessage` (its text, the
side, the text of the embedding badge and the cost shown), the transient element with id
`status-message`, or the element with id `loading-indicator`. -/
inductive FeedItem where
  | message (text : String) (isUser : Bool) (badge : Option String) (cost : Option Cost)
  | status (text : String)
  | loading
deriving DecidableEq, Repr

/-- The `id` attribute of a feed element. -/
def FeedItem.id : FeedItem → Option String
  | FeedItem.message _ _ _ _ => none
  | FeedItem.status _ => some "status-message"
  | FeedItem.loading => some "loading-indicator"

/-- A turn `{ role, content }` of `chatHistory`. -/
structure ChatTurn where
  role : String
  content : String
deriving DecidableEq, Repr

/-- A call of `fetch`: the endpoint and the fields of the JSON body. -/
inductive Request where
  | toggleEmbeddings (embedding_type : String)
  | chat (message : String) (history : List ChatTurn) (embedding_type : String)
deriving DecidableEq, Repr

/-- The variables of the script and the parts of the page it reads and writes.  The field
`requests` lists the calls of `fetch` made so far. -/
structure State where
  chatHistory : List ChatTurn
  qaCitationHistory : List HistoryEntry
  currentEmbeddingType : String
  embeddingToggleDesktop : Bool
  embeddingToggleMobile : Bool
  desktopToggleOptions : List ToggleOption
  mobileToggleOptions : List ToggleOption
  chatMessages : List FeedItem
  citationList : List PanelChild
  userInput : String
  requests : List Request
deriving DecidableEq, Repr

/-- The state of the page when the script has run to its end: the three variables at their
initial values, the panel rendered from the empty history, no request made.  The toggles,
their labels and the feed are as the page markup has them. -/
def State.initial (desktop mobile : Bool) (desktopOptions mobileOptions : List ToggleOption)
    (feed : List FeedItem) (input : String) : State :=
  { chatHistory := [], qaCitationHistory := [], currentEmbeddingType := "openai",
    embeddingToggleDesktop := desktop, embeddingToggleMobile := mobile,
    desktopToggleOptions := desktopOptions, mobileToggleOptions := mobileOptions,
    chatMessages := feed, citationList := renderCitationHistory [] (some []),
    userInput := input, requests := [] }

/-- The value `a || b` for a text `a` that may be missing: `b` when `a` is missing or
empty. -/
def orElse (a : Option String) (b : String) : String :=
  match a with
  | none => b
  | some x => if x = "" then b else x

/-- The statements `document.getElementById(id)` and `remove()` on the chat feed: the first
element with that id is removed, if there is one. -/
def removeById (id : String) : List FeedItem → List FeedItem
  | [] => []
  | x :: xs => if x.id = some id then xs else x :: removeById id xs

/-- The function `showLoading()`. -/
def showLoading (s : State) : State :=
  { s with chatMessages := s.chatMessages ++ [FeedItem.loading] }

/-- The function `removeLoading()`. -/
def removeLoading (s : State) : State :=
  { s with chatMessages := removeById "loading-indicator" s.chatMessages }

/-- The function `addMessage(text, isUser, embeddingType, cost)`: a user message is plain
text; a bot message gets the badge `TF-IDF` or `OpenAI` when `embeddingType` is truthy, and
the cost line when `cost` is given. -/
def addMessage (s : State) (text : String) (isUser : Bool) (embeddingType : Option String)
    (cost : Option Cost) : State :=
  let badge : Option String :=
    match embeddingType with
    | none => none
    | some t => if t = "" then none else some (if t = "tfidf" then "TF-IDF" else "OpenAI")
  { s with chatMessages := s.chatMessages ++
      [if isUser then FeedItem.message text true none none
       else FeedItem.message text false badge cost] }

/-! ## Embedding mode controller: `updateToggleLabels`, `syncToggles`, `updateEmbeddingType` -/

/-- The function `updateToggleLabels(activeType)`: in both option groups a label is marked
active exactly when its `dataset.value` is `activeType`. -/
def updateToggleLabels (s : State) (activeType : String) : State :=
  { s with
    desktopToggleOptions := s.desktopToggleOptions.map
      (fun opt => { opt with active := decide (opt.value = activeType) }),
    mobileToggleOptions := s.mobileToggleOptions.map
      (fun opt => { opt with active := decide (opt.value = activeType) }) }

/-- The property `sourceToggle.checked`. -/
def checkedOf (s : State) : Toggle → Bool
  | Toggle.desktop => s.embeddingToggleDesktop
  | Toggle.mobile => s.embeddingToggleMobile

/-- The function `syncToggles(sourceToggle)`. -/
def syncToggles (s : State) (sourceToggle : Toggle) : State :=
  let isChecked := checkedOf s sourceToggle
  let s1 :=
    if Toggle.desktop ≠ sourceToggle then { s with embeddingToggleDesktop := isChecked } else s
  let s2 :=
    if Toggle.mobile ≠ sourceToggle then { s1 with embeddingToggleMobile := isChecked } else s1
  updateToggleLabels s2 (if isChecked then "openai" else "tfidf")

/-- The body `{ success, embedding_type, message }` of a toggle response. -/
structure ToggleData where
  success : Bool
  embedding_type : String
  message : String
deriving DecidableEq, Repr

/-- What the awaited calls of `updateEmbeddingType` give: an error thrown by `fetch` or by
`response.json()` with its message, or a response with `ok`, `statusText` and its body. -/
inductive ToggleOutcome where
  | thrown (message : String)
  | response (ok : Bool) (statusText : String) (data : ToggleData)
deriving DecidableEq, Repr

/-- A toggle call failed: an error was thrown, the status is not OK, or the success flag of
the body is false. -/
def ToggleOutcome.failed : ToggleOutcome → Bool
  | ToggleOutcome.thrown _ => true
  | ToggleOutcome.response ok _ data => !ok || !data.success

/-- The message of the error the `catch` block of `updateEmbeddingType` receives. -/
def ToggleOutcome.errorMessage : ToggleOutcome → String
  | ToggleOutcome.thrown message => message
  | ToggleOutcome.response _ statusText data =>
    orElse (some data.message) ("Error switching: " ++ statusText)

/-- The function `updateEmbeddingType(sourceToggle)` up to its first `await`: the state then,
and whether a request was made (`false`: the function returned early). -/
def updateEmbeddingTypeStart (s : State) (sourceToggle : Toggle) : State × Bool :=
  let newType := if checkedOf s sourceToggle then "openai" else "tfidf"
  let s1 := syncToggles s sourceToggle
  if newType = s1.currentEmbeddingType then (s1, false)
  else
    let s2 := { s1 with chatMessages := s1.chatMessages ++
      [FeedItem.status ("Switching to " ++ (if newType = "tfidf" then "TF-IDF" else "OpenAI")
        ++ " embeddings...")] }
    ({ s2 with requests := s2.requests ++ [Request.toggleEmbeddings newType] }, true)

/-- The `catch` block of `updateEmbeddingType`. -/
def updateEmbeddingTypeCatch (s : State) (message : String) : State :=
  let s1 := { s with chatMessages := removeById "status-message" s.chatMessages }
  let s2 := { s1 with
    embeddingToggleDesktop := decide (s1.currentEmbeddingType = "openai"),
    embeddingToggleMobile := decide (s1.currentEmbeddingType = "openai") }
  let s3 := updateToggleLabels s2 s2.currentEmbeddingType
  addMessage s3 ("Error: " ++ message) false none none

/-- The function `updateEmbeddingType` from its first `await` on, for a given outcome of the
awaited calls. -/
def updateEmbeddingTypeResume (s : State) (outcome : ToggleOutcome) : State :=
  match outcome with
  | ToggleOutcome.thrown message => updateEmbeddingTypeCatch s message
  | ToggleOutcome.response ok statusText data =>
    let s1 := { s with chatMessages := removeById "status-message" s.chatMessages }
    if !ok || !data.success then
      updateEmbeddingTypeCatch s1 (orElse (some data.message) ("Error switching: " ++ statusText))
    else
      let s2 := { s1 with currentEmbeddingType := data.embedding_type }
      addMessage s2 data.message false (some data.embedding_type) none

/-- A whole call of `updateEmbeddingType(sourceToggle)` with nothing else running while it
waits. -/
def updateEmbeddingType (s : State) (sourceToggle : Toggle) (outcome : ToggleOutcome) : State :=
  match updateEmbeddingTypeStart s sourceToggle with
  | (s1, false) => s1
  | (s1, true) => updateEmbeddingTypeResume s1 outcome

/-! ## Chat submission: `handleSubmit` -/

/-- The method `trim()`. -/
def trim (s : String) : String :=
  String.mk (((s.toList.dropWhile isWhiteSpace).reverse.dropWhile isWhiteSpace).reverse)

/-- The body `{ answer, citations, embedding_type, cost }` of a chat response. -/
structure ChatData where
  answer : String
  citations : List Citation
  embedding_type : String
  cost : Option Cost
deriving DecidableEq, Repr

/-- What the awaited calls of `handleSubmit` give: an error thrown by `fetch` or by a call of
`json()` with its message, a response that is not OK with the `detail` of its body and its
`statusText`, or an OK response with its body. -/
inductive ChatOutcome where
  | thrown (message : String)
  | notOk (detail : Option String) (statusText : String)
  | ok (data : ChatData)
deriving DecidableEq, Repr

/-- The function `handleSubmit(e)` up to its first `await`: the state then, and the trimmed
message when a request was made (`none`: the function returned early). -/
def handleSubmitStart (s : State) : State × Option String :=
  let message := trim s.userInput
  if message = "" then (s, none)
  else
    let s1 := addMessage s message true none none
    let s2 := { s1 with userInput := "" }
    let s3 := showLoading s2
    ({ s3 with requests := s3.requests ++
        [Request.chat message s3.chatHistory s3.currentEmbeddingType] }, some message)

/-- The `catch` block of `handleSubmit`. -/
def handleSubmitCatch (s : State) (message : String) : State :=
  addMessage (removeLoading s)
    ("Sorry, there was an error processing your request: " ++ message) false none none

/-- The function `handleSubmit` from its first `await` on, for the message it trimmed and a
given outcome of the awaited calls. -/
def handleSubmitResume (s : State) (message : String) (outcome : ChatOutcome) : State :=
  match outcome with
  | ChatOutcome.thrown m => handleSubmitCatch s m
  | ChatOutcome.notOk detail statusText =>
    handleSubmitCatch s (orElse detail ("Error: " ++ statusText))
  | ChatOutcome.ok data =>
    let s1 := removeLoading s
    let processedAnswer := processCitationsInText data.answer data.citations
    let s2 := addMessage s1 processedAnswer false (some data.embedding_type) data.cost
    let s3 := { s2 with qaCitationHistory := s2.qaCitationHistory ++
      [HistoryEntry.mk message data.answer (some data.citations)] }
    let s4 := { s3 with
      citationList := renderCitationHistory s3.citationList (some s3.qaCitationHistory) }
    { s4 with chatHistory := s4.chatHistory ++
      [ChatTurn.mk "user" message, ChatTurn.mk "assistant" data.answer] }

/-- A whole call of `handleSubmit(e)` with nothing else running while it waits. -/
def handleSubmit (s : State) (outcome : ChatOutcome) : State :=
  match handleSubmitStart s with
  | (s1, none) => s1
  | (s1, some message) => handleSubmitResume s1 message outcome

/-- A chat request failed: an error was thrown or the status is not OK. -/
def ChatOutcome.failed : ChatOutcome → Bool
  | ChatOutcome.ok _ => false
  | _ => true

/-! ## The page as the script wires it -/

/-- The user sets a toggle control: the browser changes its `checked` property and then
dispatches the `change` event. -/
def userSets (s : State) (t : Toggle) (checked : Bool) : State :=
  match t with
  | Toggle.desktop => { s with embeddingToggleDesktop := checked }
  | Toggle.mobile => { s with embeddingToggleMobile := checked }

/-- The events of the page the script is concerned with: a `change` of a toggle control and
the `submit` of the chat form. -/
inductive PageEvent where
  | toggleChange (t : Toggle)
  | submit
deriving DecidableEq, Repr

/-- What the script runs on an event, a handler running alone.  The one listener the script
registers is `chatForm.addEventListener('submit', handleSubmit)`; the two lines
`embeddingToggle….addEventListener('change', () => updateEmbeddingType(…))` are commented
out and `updateEmbeddingType` has no other caller, so a `change` of a toggle runs nothing. -/
def dispatchEvent (s : State) (e : PageEvent) (chatOutcome : ChatOutcome) : State :=
  match e with
  | PageEvent.toggleChange _ => s
  | PageEvent.submit => handleSubmit s chatOutcome

/-- The two embedding modes of the data model. -/
def IsEmbeddingMode (m : String) : Prop := m = "openai" ∨ m = "tfidf"

instance (m : String) : Decidable (IsEmbeddingMode m) :=
  inferInstanceAs (Decidable (m = "openai" ∨ m = "tfidf"))

/-- The mode a toggle control shows. -/
def modeShown (checked : Bool) : String := if checked then "openai" else "tfidf"

/-- The two toggle controls agree, and in both option groups the labels marked active are
exactly those that name the mode the controls show. -/
def InSync (s : State) : Prop :=
  s.embeddingToggleDesktop = s.embeddingToggleMobile
  ∧ ∀ opt ∈ s.desktopToggleOptions ++ s.mobileToggleOptions,
      opt.active = decide (opt.value = modeShown s.embeddingToggleDesktop)

instance (s : State) : Decidable (InSync s) :=
  inferInstanceAs (Decidable (s.embeddingToggleDesktop = s.embeddingToggleMobile
    ∧ ∀ opt ∈ s.desktopToggleOptions ++ s.mobileToggleOptions,
        opt.active = decide (opt.value = modeShown s.embeddingToggleDesktop)))

/-! # Theorems -/

/-! ### Lemmas on the matcher -/

theorem stripChars_append (p s : List Char) : stripChars p (p ++ s) = some s := by
  induction p with
  | nil => rfl
  | cons a p ih => simp [stripChars, ih]

theorem stripChars_suffix {p s r : List Char} (h : stripChars p s = some r) :
    ∃ m, s = m ++ r ∧ m.length = p.length := by
  induction p generalizing s with
  | nil => simp [stripChars] at h; subst h; exact ⟨[], rfl, rfl⟩
  | cons a p ih =>
    cases s with
    | nil => simp [stripChars] at h
    | cons c cs =>
      simp only [stripChars] at h
      split at h
      · obtain ⟨m, hm, hl⟩ := ih h
        exact ⟨c :: m, by simp [hm], by simp [hl]⟩
      · cases h

theorem optChar_suffix (c : Char) (s : List Char) : ∃ m, s = m ++ optChar c s := by
  cases s with
  | nil => exact ⟨[], rfl⟩
  | cons d t =>
    simp only [optChar]
    split
    · exact ⟨[d], rfl⟩
    · exact ⟨[], rfl⟩

theorem matchTail_suffix {s ds rest : List Char} (h : matchTail s = some (ds, rest)) :
    ∃ m, s = m ++ rest ∧ m ≠ [] := by
  unfold matchTail at h
  simp only at h
  split at h
  · cases h
  · split at h
    · cases h
    · rename_i e r he
      split at h
      · simp only [Option.some.injEq, Prod.mk.injEq] at h
        obtain ⟨-, rfl⟩ := h
        obtain ⟨m1, h1⟩ := optChar_suffix '\x7b' s
        obtain ⟨m3, h3⟩ := optChar_suffix '\x7d' ((optChar '\x7b' s).dropWhile Char.isDigit)
        have h2 := List.takeWhile_append_dropWhile Char.isDigit (optChar '\x7b' s)
        refine ⟨m1 ++ (optChar '\x7b' s).takeWhile Char.isDigit ++ m3 ++ [e], ?_, by simp⟩
        rw [he] at h3
        calc s = m1 ++ optChar '\x7b' s := h1
          _ = m1 ++ ((optChar '\x7b' s).takeWhile Char.isDigit
                ++ (optChar '\x7b' s).dropWhile Char.isDigit) := by rw [h2]
          _ = m1 ++ ((optChar '\x7b' s).takeWhile Char.isDigit ++ (m3 ++ e :: r)) := by
                rw [← h3]
          _ = _ := by simp
      · cases h

theorem matchMarker_suffix {s ds rest : List Char} (h : matchMarker s = some (ds, rest)) :
    ∃ m, s = m ++ rest ∧ m ≠ [] := by
  unfold matchMarker at h
  split at h
  · cases h
  · rename_i s1 hs
    obtain ⟨m0, h0, -⟩ := stripChars_suffix hs
    obtain ⟨m, hm, hne⟩ := matchTail_suffix h
    exact ⟨m0 ++ m, by rw [h0, hm]; simp, by simp [hne]⟩

theorem matchMarker_length {s ds rest : List Char} (h : matchMarker s = some (ds, rest)) :
    rest.length < s.length := by
  obtain ⟨m, hm, hne⟩ := matchMarker_suffix h
  have : 0 < m.length := List.length_pos.2 hne
  rw [hm]; simp; omega

theorem matchMarker_take {s ds rest : List Char} (h : matchMarker s = some (ds, rest)) :
    s.take (s.length - rest.length) ++ rest = s := by
  obtain ⟨m, hm, -⟩ := matchMarker_suffix h
  subst hm
  simp

/-! ### The iteration bound is enough -/

theorem replaceLoop_fuel (cs : List Citation) :
    ∀ (f1 f2 : Nat) (s : List Char), s.length ≤ f1 → s.length ≤ f2 →
      replaceLoop cs f1 s = replaceLoop cs f2 s := by
  intro f1
  induction f1 with
  | zero =>
    intro f2 s h1 _
    have : s = [] := List.length_eq_zero.1 (Nat.le_zero.1 h1)
    subst this
    cases f2 <;> rfl
  | succ f1 ih =>
    intro f2 s h1 h2
    cases s with
    | nil => cases f2 <;> rfl
    | cons c t =>
      cases f2 with
      | zero => simp at h2
      | succ f2 =>
        simp only [replaceLoop]
        split
        · rw [ih f2 t (by simpa using h1) (by simpa using h2)]
        · rename_i ds rest hm
          have hl := matchMarker_length hm
          simp only [List.length_cons] at hl h1 h2
          rw [ih f2 rest (by omega) (by omega)]

theorem linkChars_nil (cs : List Citation) : linkChars cs [] = [] := rfl

theorem linkChars_cons (cs : List Citation) (c : Char) (t : List Char) :
    linkChars cs (c :: t) =
      match matchMarker (c :: t) with
      | none => c :: linkChars cs t
      | some (ds, rest) =>
        replacement cs ((c :: t).take ((c :: t).length - rest.length)) ds ++ linkChars cs rest := by
  unfold linkChars
  simp only [List.length_cons, replaceLoop]
  split
  · rfl
  · rename_i ds rest hm
    have hl := matchMarker_length hm
    simp only [List.length_cons] at hl
    rw [replaceLoop_fuel cs t.length rest.length rest (by omega) (Nat.le_refl _)]

/-! ### A match never runs across the opening bracket of a later marker -/

theorem stripChars_append_right {p s r : List Char} (X : List Char)
    (h : stripChars p s = some r) : stripChars p (s ++ X) = some (r ++ X) := by
  induction p generalizing s with
  | nil => simp [stripChars] at h; subst h; rfl
  | cons a p ih =>
    cases s with
    | nil => simp [stripChars] at h
    | cons c cs =>
      simp only [stripChars, List.cons_append] at h ⊢
      split at h
      · rename_i hac
        simp [hac, ih h]
      · cases h

theorem stripChars_none_bracket {p s : List Char} (r : List Char) (hp : '[' ∉ p)
    (h : stripChars p s = none) : stripChars p (s ++ '[' :: r) = none := by
  induction p generalizing s with
  | nil => simp [stripChars] at h
  | cons a p ih =>
    have ha : a ≠ '[' := fun e => hp (by simp [e])
    have hp2 : '[' ∉ p := fun e => hp (by simp [e])
    cases s with
    | nil => simp [stripChars, ha]
    | cons c cs =>
      simp only [stripChars, List.cons_append] at h ⊢
      split
      · rename_i hac
        simp only [hac, if_true] at h
        exact ih hp2 h
      · rfl

theorem optChar_append_bracket (c : Char) (hc : c ≠ '[') (s r : List Char) :
    optChar c (s ++ '[' :: r) = optChar c s ++ '[' :: r := by
  cases s with
  | nil => simp [optChar, Ne.symm hc]
  | cons d t =>
    simp only [optChar, List.cons_append]
    split <;> rfl

theorem takeWhile_append_bracket (s r : List Char) :
    (s ++ '[' :: r).takeWhile Char.isDigit = s.takeWhile Char.isDigit := by
  induction s with
  | nil => simp [List.takeWhile_cons]
  | cons a s ih => simp only [List.cons_append, List.takeWhile_cons, ih]

theorem dropWhile_append_bracket (s r : List Char) :
    (s ++ '[' :: r).dropWhile Char.isDigit = s.dropWhile Char.isDigit ++ '[' :: r := by
  induction s with
  | nil => simp [List.dropWhile_cons]
  | cons a s ih =>
    simp only [List.cons_append, List.dropWhile_cons, ih]
    split <;> rfl

theorem matchTail_append_bracket (s r : List Char) :
    matchTail (s ++ '[' :: r) = (matchTail s).map (fun x => (x.1, x.2 ++ '[' :: r)) := by
  unfold matchTail
  simp only [optChar_append_bracket '\x7b' (by decide), takeWhile_append_bracket,
    dropWhile_append_bracket, optChar_append_bracket '\x7d' (by decide)]
  split
  · rfl
  · cases h : optChar '\x7d' (List.dropWhile Char.isDigit (optChar '\x7b' s)) with
    | nil => simp
    | cons e rest =>
      simp only [List.cons_append]
      split <;> simp

theorem matchMarker_append_bracket (s r : List Char) (hs : s ≠ []) :
    matchMarker (s ++ '[' :: r) = (matchMarker s).map (fun x => (x.1, x.2 ++ '[' :: r)) := by
  cases s with
  | nil => exact absurd rfl hs
  | cons c t =>
    unfold matchMarker
    cases h : stripChars "[citation".toList (c :: t) with
    | some s1 =>
      rw [stripChars_append_right _ h]
      exact matchTail_append_bracket s1 r
    | none =>
      have h2 : stripChars "[citation".toList ((c :: t) ++ '[' :: r) = none := by
        have e : "[citation".toList = '[' :: "citation".toList := rfl
        rw [e] at h ⊢
        simp only [stripChars, List.cons_append] at h ⊢
        split
        · rename_i hc
          simp only [hc, if_true] at h
          exact stripChars_none_bracket r (by decide) h
        · rfl
      rw [h2]
      rfl

theorem linkChars_append_bracket (cs : List Citation) (r : List Char) :
    ∀ (n : Nat) (pre : List Char), pre.length ≤ n →
      linkChars cs (pre ++ '[' :: r) = linkChars cs pre ++ linkChars cs ('[' :: r) := by
  intro n
  induction n with
  | zero =>
    intro pre h
    have : pre = [] := List.length_eq_zero.1 (Nat.le_zero.1 h)
    subst this
    simp [linkChars_nil]
  | succ n ih =>
    intro pre h
    cases pre with
    | nil => simp [linkChars_nil]
    | cons c t =>
      have hm := matchMarker_append_bracket (c :: t) r (by simp)
      rw [List.cons_append, linkChars_cons, linkChars_cons cs c t]
      rw [List.cons_append] at hm
      rw [hm]
      cases h2 : matchMarker (c :: t) with
      | none =>
        simp only [Option.map_none']
        rw [ih t (by simpa using h)]
        rfl
      | some x =>
        obtain ⟨ds, rest⟩ := x
        simp only [Option.map_some']
        obtain ⟨m, hm2, -⟩ := matchMarker_suffix h2
        have hl := matchMarker_length h2
        simp only [List.length_cons] at hl h
        rw [ih rest (by omega)]
        have e1 : (c :: (t ++ '[' :: r)) = m ++ (rest ++ '[' :: r) := by
          rw [← List.cons_append, hm2, List.append_assoc]
        rw [e1, hm2]
        simp

/-! ### A marker at the head of the input is matched whole -/

theorem takeWhile_digits_append (N : List Char) (hd : ∀ c ∈ N, c.isDigit = true) (y : Char)
    (hy : y.isDigit = false) (r : List Char) :
    (N ++ y :: r).takeWhile Char.isDigit = N ∧ (N ++ y :: r).dropWhile Char.isDigit = y :: r := by
  induction N with
  | nil => simp [List.takeWhile_cons, List.dropWhile_cons, hy]
  | cons a N ih =>
    have ha : a.isDigit = true := hd a (by simp)
    have := ih (fun c hc => hd c (by simp [hc]))
    simp [List.takeWhile_cons, List.dropWhile_cons, ha, this]

theorem matchTail_marker (ob cb : Bool) (N post : List Char) (hne : N ≠ [])
    (hd : ∀ c ∈ N, c.isDigit = true) :
    matchTail ((if ob then ['\x7b'] else []) ++ (N ++ ((if cb then ['\x7d'] else [])
      ++ ']' :: post))) = some (N, post) := by
  have h1 : optChar '\x7b' ((if ob then ['\x7b'] else []) ++ (N ++ ((if cb then ['\x7d'] else [])
      ++ ']' :: post))) = N ++ ((if cb then ['\x7d'] else []) ++ ']' :: post) := by
    cases ob
    · cases N with
      | nil => exact absurd rfl hne
      | cons a N =>
        have ha : a.isDigit = true := hd a (by simp)
        have : a ≠ '\x7b' := by rintro rfl; revert ha; decide
        simp [optChar, this]
    · simp [optChar]
  unfold matchTail
  simp only [h1]
  cases cb
  · have h2 := takeWhile_digits_append N hd ']' (by decide) post
    simp only [if_neg, Bool.false_eq_true, List.nil_append, h2.1, h2.2, hne, if_false]
    simp [optChar]
  · have h2 := takeWhile_digits_append N hd '\x7d' (by decide) (']' :: post)
    simp only [if_true, List.singleton_append, h2.1, h2.2, hne, if_false]
    simp [optChar]

theorem matchMarker_marker (ob cb : Bool) (N post : List Char) (hne : N ≠ [])
    (hd : ∀ c ∈ N, c.isDigit = true) :
    matchMarker ("[citation".toList ++ ((if ob then ['\x7b'] else []) ++ (N ++
      ((if cb then ['\x7d'] else []) ++ ']' :: post)))) = some (N, post) := by
  unfold matchMarker
  rw [stripChars_append]
  exact matchTail_marker ob cb N post hne hd

theorem stripChars_exact {p s r : List Char} (h : stripChars p s = some r) : s = p ++ r := by
  induction p generalizing s with
  | nil => simp [stripChars] at h; subst h; rfl
  | cons a p ih =>
    cases s with
    | nil => simp [stripChars] at h
    | cons c cs =>
      simp only [stripChars] at h
      split at h
      · rename_i hac
        rw [ih h, hac]; rfl
      · cases h

theorem optChar_exact (c : Char) (s : List Char) :
    ∃ b : Bool, s = (if b then [c] else []) ++ optChar c s := by
  cases s with
  | nil => exact ⟨false, rfl⟩
  | cons d t =>
    simp only [optChar]
    split
    · rename_i h; exact ⟨true, by simp [h]⟩
    · exact ⟨false, rfl⟩

theorem matchTail_exact {s ds rest : List Char} (h : matchTail s = some (ds, rest)) :
    ∃ ob cb : Bool, s = (if ob then ['\x7b'] else []) ++ (ds ++ ((if cb then ['\x7d'] else [])
      ++ ']' :: rest)) ∧ ds ≠ [] ∧ ∀ c ∈ ds, c.isDigit = true := by
  unfold matchTail at h
  simp only at h
  split at h
  · cases h
  · rename_i hne
    split at h
    · cases h
    · rename_i e r he
      split at h
      · rename_i hend
        simp only [Option.some.injEq, Prod.mk.injEq] at h
        obtain ⟨rfl, rfl⟩ := h
        obtain ⟨ob, h1⟩ := optChar_exact '\x7b' s
        obtain ⟨cb, h3⟩ := optChar_exact '\x7d' ((optChar '\x7b' s).dropWhile Char.isDigit)
        have h2 := List.takeWhile_append_dropWhile Char.isDigit (optChar '\x7b' s)
        refine ⟨ob, cb, ?_, hne, ?_⟩
        · rw [he, hend] at h3
          rw [← h3, h2]
          exact h1
        · intro c hc
          exact (List.mem_takeWhile_imp hc)
      · cases h

theorem matchMarker_exact {s ds rest : List Char} (h : matchMarker s = some (ds, rest)) :
    ∃ ob cb : Bool, s = "[citation".toList ++ ((if ob then ['\x7b'] else []) ++ (ds ++
      ((if cb then ['\x7d'] else []) ++ ']' :: rest))) ∧ ds ≠ [] ∧ ∀ c ∈ ds, c.isDigit = true := by
  unfold matchMarker at h
  split at h
  · cases h
  · rename_i s1 hs
    obtain ⟨ob, cb, h1, h2, h3⟩ := matchTail_exact h
    exact ⟨ob, cb, by rw [stripChars_exact hs, h1], h2, h3⟩

/-! ### The linker at a marker -/

theorem take_matched (m rest : List Char) :
    (m ++ rest).take ((m ++ rest).length - rest.length) = m := by
  simp

theorem linkChars_marker (cs : List Citation) (pre post : List Char) (ob cb : Bool)
    (N : List Char) (hne : N ≠ []) (hd : ∀ c ∈ N, c.isDigit = true) :
    linkChars cs (pre ++ ("[citation".toList ++ ((if ob then ['\x7b'] else []) ++ (N ++
      ((if cb then ['\x7d'] else []) ++ ']' :: post))))) =
    linkChars cs pre ++ (replacement cs ("[citation".toList ++ ((if ob then ['\x7b'] else [])
      ++ (N ++ ((if cb then ['\x7d'] else []) ++ [']'])))) N ++ linkChars cs post) := by
  have hm := matchMarker_marker ob cb N post hne hd
  have e : "[citation".toList = '[' :: "citation".toList := rfl
  rw [e] at hm ⊢
  rw [List.cons_append] at hm ⊢
  rw [linkChars_append_bracket cs _ pre.length pre (Nat.le_refl _), linkChars_cons, hm]
  simp only
  have hfull : ('[' :: ("citation".toList ++ ((if ob then ['\x7b'] else []) ++ (N ++
      ((if cb then ['\x7d'] else []) ++ ']' :: post))))) =
      ('[' :: ("citation".toList ++ ((if ob then ['\x7b'] else []) ++ (N ++
      ((if cb then ['\x7d'] else []) ++ [']']))))) ++ post := by simp
  rw [hfull, take_matched]
  rfl

theorem arrayGet_in_range {α : Type} (xs : List α) (n : Nat) (h1 : 1 ≤ n) (h2 : n ≤ xs.length) :
    arrayGet xs ((n : Int) - 1) = some (xs.get ⟨n - 1, by omega⟩) := by
  unfold arrayGet
  have h3 : ¬ ((n : Int) - 1 < 0) := by omega
  have h4 : ((n : Int) - 1).toNat = n - 1 := by omega
  rw [if_neg h3, h4, List.get?_eq_get]

theorem arrayGet_out_of_range {α : Type} (xs : List α) (n : Nat)
    (h : n = 0 ∨ xs.length < n) : arrayGet xs ((n : Int) - 1) = none := by
  unfold arrayGet
  split
  · rfl
  · rename_i h3
    have h4 : ((n : Int) - 1).toNat = n - 1 := by omega
    rw [h4, List.get?_eq_none]
    omega

theorem patternText_toList (ob cb : Bool) (N : String) :
    (patternText ob cb N).data = "[citation".toList ++ ((if ob then ['\x7b'] else []) ++
      (N.data ++ ((if cb then ['\x7d'] else []) ++ [']']))) := by
  cases ob <;> cases cb <;> simp [patternText, String.toList]

theorem marker_eq_patternText (braced : Bool) (N : String) :
    marker braced N = patternText braced braced N := by
  apply String.ext
  cases braced <;> simp [marker, patternText]

theorem processCitationsInText_eq (text : String) (cs : List Citation) :
    processCitationsInText text cs = String.mk (linkChars cs text.toList) := rfl

theorem processCitationsInText_pattern (cs : List Citation) (pre post : String) (ob cb : Bool)
    (N : String) (hN : IsDigits N) :
    processCitationsInText (pre ++ patternText ob cb N ++ post) cs =
      processCitationsInText pre cs
        ++ String.mk (replacement cs (patternText ob cb N).toList N.toList)
        ++ processCitationsInText post cs := by
  apply String.ext
  simp only [processCitationsInText_eq, String.data_append, String.toList, patternText_toList]
  have := linkChars_marker cs pre.data post.data ob cb N.data hN.1 hN.2
  simp only [List.append_assoc, List.singleton_append] at this ⊢
  exact this

theorem linkChars_id_of_no_resolve (cs : List Citation) :
    ∀ (n : Nat) (s : List Char), s.length ≤ n →
      (∀ (i : Nat) (ds rest : List Char), matchMarker (s.drop i) = some (ds, rest) →
        arrayGet cs ((parseInt ds : Int) - 1) = none) →
      linkChars cs s = s := by
  intro n
  induction n with
  | zero =>
    intro s h _
    have : s = [] := List.length_eq_zero.1 (Nat.le_zero.1 h)
    subst this
    rfl
  | succ n ih =>
    intro s h hno
    cases s with
    | nil => rfl
    | cons c t =>
      rw [linkChars_cons]
      cases hm : matchMarker (c :: t) with
      | none =>
        simp only
        rw [ih t (by simpa using h) (fun i ds rest hi => hno (i + 1) ds rest (by simpa using hi))]
      | some x =>
        obtain ⟨ds, rest⟩ := x
        simp only
        have h0 := hno 0 ds rest (by simpa using hm)
        have hl := matchMarker_length hm
        obtain ⟨m, hm2, -⟩ := matchMarker_suffix hm
        simp only [List.length_cons] at hl h
        have hrest : linkChars cs rest = rest := by
          apply ih rest (by omega)
          intro i ds2 rest2 hi
          apply hno (m.length + i) ds2 rest2
          rw [hm2, ← List.drop_drop, List.drop_left]
          exact hi
        rw [hrest]
        unfold replacement
        rw [h0]
        exact matchMarker_take hm

theorem mk_toList (s : String) : String.mk s.toList = s := rfl

theorem processCitationsInText_of_no_resolve (citations : List Citation) (text : String)
    (hno : ∀ (pre post N : String) (ob cb : Bool), text = pre ++ patternText ob cb N ++ post →
      IsDigits N → (parseInt N.toList = 0 ∨ citations.length < parseInt N.toList)) :
    processCitationsInText text citations = text := by
  rw [processCitationsInText_eq]
  apply String.ext
  show linkChars citations text.data = text.data
  apply linkChars_id_of_no_resolve citations text.data.length text.data (Nat.le_refl _)
  intro i ds rest hm
  obtain ⟨ob, cb, hs, hne, hd⟩ := matchMarker_exact hm
  apply arrayGet_out_of_range
  apply hno (String.mk (text.data.take i)) (String.mk rest) (String.mk ds) ob cb
  · apply String.ext
    simp only [String.data_append, patternText_toList]
    have := List.take_append_drop i text.data
    rw [hs] at this
    simp only [List.append_assoc, List.singleton_append] at this ⊢
    exact this.symm
  · exact ⟨hne, hd⟩

/-! ## C1, C2: the citation linker -/

/-- C1: a marker `[citationN]` or `[citation{N}]` (N a digit string) anywhere in the answer
text whose index `n = parseInt(N)` satisfies `1 ≤ n ≤ citations.length` is replaced by the
anchor element whose `href` is `citations[n-1].url`, whose `data-citation-id` is
`citations[n-1].id` and whose label is `[N]` with the literal digits of the marker; the text
before and the text after the marker are processed on their own. -/
theorem processCitationsInText_links_marker (citations : List Citation) (pre post N : String)
    (braced : Bool) (hN : IsDigits N) (h1 : 1 ≤ parseInt N.toList)
    (h2 : parseInt N.toList ≤ citations.length) :
    processCitationsInText (pre ++ marker braced N ++ post) citations =
      processCitationsInText pre citations
        ++ anchor (citations.get ⟨parseInt N.toList - 1, by omega⟩).url
            (citations.get ⟨parseInt N.toList - 1, by omega⟩).id N
        ++ processCitationsInText post citations := by
  rw [marker_eq_patternText, processCitationsInText_pattern citations pre post braced braced N hN]
  unfold replacement
  rw [arrayGet_in_range citations (parseInt N.toList) h1 h2]
  rfl

/-- C1, the example of the specification: `"Sharks are fish[citation1]."` with the one citation
`{id: "c1", url: "/doc#p3", page: 3, text: "..."}` gives an anchor with label `[1]`, lookup key
`c1` and target `/doc#p3`. -/
theorem processCitationsInText_links_marker_witness :
    IsDigits "1" ∧ 1 ≤ parseInt "1".toList
      ∧ parseInt "1".toList ≤ [Citation.mk "c1" "/doc#p3" 3 "..."].length
      ∧ processCitationsInText "Sharks are fish[citation1]." [Citation.mk "c1" "/doc#p3" 3 "..."]
        = "Sharks are fish" ++ anchor "/doc#p3" "c1" "1" ++ "."
      ∧ anchor "/doc#p3" "c1" "1"
        = "<a href=\"/doc#p3\" class=\"citation-ref\" data-citation-id=\"c1\" target=\"_blank\">[1]</a>" :=
  ⟨⟨by decide, by decide⟩, by decide, by decide,
    processCitationsInText_links_marker [Citation.mk "c1" "/doc#p3" 3 "..."] "Sharks are fish" "."
      "1" false ⟨by decide, by decide⟩ (by decide) (by decide),
    by decide⟩

/-- C2: a marker whose index is outside the range of the citation array (index 0, or an index
greater than `citations.length`) appears in the output as the identical marker text, the text
around it being processed on its own; when no text the pattern accepts resolves to a citation
the output equals the input; and with an empty citation array the output always equals the
input.  The function is total: no error is raised. -/
theorem processCitationsInText_keeps_unresolved (citations : List Citation) :
    (∀ (pre post N : String) (braced : Bool), IsDigits N →
        (parseInt N.toList = 0 ∨ citations.length < parseInt N.toList) →
        processCitationsInText (pre ++ marker braced N ++ post) citations =
          processCitationsInText pre citations ++ marker braced N
            ++ processCitationsInText post citations)
    ∧ (∀ text : String,
        (∀ (pre post N : String) (ob cb : Bool), text = pre ++ patternText ob cb N ++ post →
          IsDigits N → (parseInt N.toList = 0 ∨ citations.length < parseInt N.toList)) →
        processCitationsInText text citations = text)
    ∧ (∀ text : String, processCitationsInText text [] = text) := by
  refine ⟨?_, ?_, ?_⟩
  · intro pre post N braced hN hout
    rw [marker_eq_patternText,
      processCitationsInText_pattern citations pre post braced braced N hN]
    unfold replacement
    rw [arrayGet_out_of_range citations (parseInt N.toList) hout]
    rfl
  · exact processCitationsInText_of_no_resolve citations
  · intro text
    apply processCitationsInText_of_no_resolve [] text
    intro pre post N ob cb _ _
    simp only [List.length_nil]
    omega

/-- C2 at concrete inputs: index 0 and index 2 with one citation are kept as written. -/
theorem processCitationsInText_keeps_unresolved_witness :
    processCitationsInText "a[citation0]b[citation\x7b2\x7d]" [Citation.mk "c1" "/doc#p3" 3 "..."]
        = "a[citation0]b[citation\x7b2\x7d]"
      ∧ processCitationsInText "x[citation1]" [] = "x[citation1]" :=
  ⟨((processCitationsInText_keeps_unresolved [Citation.mk "c1" "/doc#p3" 3 "..."]).1
      "a[citation0]b" "" "2" true ⟨by decide, by decide⟩ (by decide)).trans (by decide),
   (processCitationsInText_keeps_unresolved []).2.2 "x[citation1]"⟩

/-! ### Lemmas on the history renderer -/

theorem renderItems_append (len : Nat) (a b : List HistoryEntry) :
    ∀ index : Nat, renderItems len index (a ++ b) =
      renderItems len index a ++ renderItems len (index + a.length) b := by
  induction a with
  | nil => intro index; simp [renderItems]
  | cons x a ih =>
    intro index
    have e : index + (x :: a).length = index + 1 + a.length := by simp; omega
    rw [e]
    simp only [List.cons_append, renderItems]
    cases x.citations with
    | none => exact ih (index + 1)
    | some cs =>
      simp only
      split
      · exact ih (index + 1)
      · show _ :: renderItems len (index + 1) (a ++ b) = _
        rw [ih (index + 1)]; rfl

theorem renderItems_closed (len : Nat) (items : List HistoryEntry) :
    ∀ index : Nat, index + items.length ≤ len - 1 →
      ∀ d ∈ entriesOf (renderItems len index items), d.isOpen = false := by
  induction items with
  | nil => intro index _ d hd; simp [renderItems, entriesOf] at hd
  | cons x items ih =>
    intro index h d hd
    simp only [List.length_cons] at h
    simp only [renderItems] at hd
    cases hx : x.citations with
    | none =>
      rw [hx] at hd
      exact ih (index + 1) (by omega) d hd
    | some cs =>
      rw [hx] at hd
      simp only at hd
      split at hd
      · exact ih (index + 1) (by omega) d hd
      · simp only [entriesOf, List.mem_cons] at hd
        rcases hd with rfl | hd
        · have : index ≠ len - 1 := by omega
          simp [this]
        · exact ih (index + 1) (by omega) d hd

theorem entriesOf_append (a b : List PanelChild) :
    entriesOf (a ++ b) = entriesOf a ++ entriesOf b := by
  induction a with
  | nil => rfl
  | cons x a ih => cases x <;> simp [entriesOf, ih]

theorem renderItems_content (len : Nat) (items : List HistoryEntry) :
    ∀ index : Nat,
      placeholdersOf (renderItems len index items) = []
      ∧ (entriesOf (renderItems len index items)).map (fun d => (d.summary, d.citations))
          = (items.filter hasCitations).map
              (fun item => (summaryText item.question, citationItemsOf item)) := by
  induction items with
  | nil => intro index; simp [renderItems, entriesOf, placeholdersOf]
  | cons x items ih =>
    intro index
    have := ih (index + 1)
    simp only [renderItems]
    cases hx : x.citations with
    | none => simpa [hasCitations, hx] using this
    | some cs =>
      simp only
      split
      · rename_i h0
        simpa [hasCitations, hx, h0] using this
      · rename_i h0
        simp [hasCitations, hx, h0, entriesOf, placeholdersOf, citationItemsOf, this]

theorem renderCitationHistory_nonempty (citationList : List PanelChild)
    (history : List HistoryEntry) (h : history ≠ []) :
    renderCitationHistory citationList (some history) = renderItems history.length 0 history := by
  have : history.length ≠ 0 := fun e => h (List.length_eq_zero.1 e)
  simp [renderCitationHistory, clearPanel, this]

/-! ### Lemmas on `split` and `join` -/

theorem splitBy_ne_nil (p : Char → Bool) (s : List Char) : splitBy p s ≠ [] := by
  cases s with
  | nil => simp [splitBy]
  | cons c t =>
    simp only [splitBy]
    split
    · simp
    · split <;> simp

theorem splitBy_cons_of_not (p : Char → Bool) (c : Char) (t : List Char) (h : p c = false) :
    ∃ w ws, splitBy p t = w :: ws ∧ splitBy p (c :: t) = (c :: w) :: ws := by
  cases ht : splitBy p t with
  | nil => exact absurd ht (splitBy_ne_nil p t)
  | cons w ws => exact ⟨w, ws, rfl, by simp [splitBy, h, ht]⟩

theorem splitBy_congr (p q : Char → Bool) (s : List Char) (h : ∀ c ∈ s, p c = q c) :
    splitBy p s = splitBy q s := by
  induction s with
  | nil => rfl
  | cons c t ih =>
    have h1 : p c = q c := h c (by simp)
    have h2 := ih (fun d hd => h d (by simp [hd]))
    simp only [splitBy, h1, h2]

theorem join_cons_head (sep c : Char) (w : List Char) (ws : List (List Char)) :
    join sep ((c :: w) :: ws) = c :: join sep (w :: ws) := by
  cases ws <;> simp [join]

theorem join_nil_cons (sep : Char) (ws : List (List Char)) (h : ws ≠ []) :
    join sep ([] :: ws) = sep :: join sep ws := by
  cases ws with
  | nil => exact absurd rfl h
  | cons w ws => simp [join]

theorem join_split (sep : Char) (s : List Char) : join sep (split sep s) = s := by
  induction s with
  | nil => rfl
  | cons c t ih =>
    unfold split at ih ⊢
    by_cases hc : c = sep
    · simp only [splitBy, hc, decide_True, if_true]
      rw [join_nil_cons sep _ (splitBy_ne_nil _ t), ih]
    · obtain ⟨w, ws, h1, h2⟩ := splitBy_cons_of_not (fun c => decide (c = sep)) c t (by simp [hc])
      rw [h2, join_cons_head, ← h1, ih]

theorem length_split (sep : Char) (s : List Char) :
    (split sep s).length = s.count sep + 1 := by
  induction s with
  | nil => rfl
  | cons c t ih =>
    unfold split at ih ⊢
    by_cases hc : c = sep
    · simp only [splitBy, hc, decide_True, if_true, List.length_cons, ih]
      simp
    · obtain ⟨w, ws, h1, h2⟩ := splitBy_cons_of_not (fun c => decide (c = sep)) c t (by simp [hc])
      rw [h2]
      rw [h1] at ih
      simp only [List.length_cons] at ih ⊢
      rw [ih, List.count_cons_of_ne (Ne.symm hc)]

theorem take_split (sep : Char) (s : List Char) :
    ∀ k : Nat, k + 1 < (split sep s).length →
      ∃ body rest, s = body ++ sep :: rest ∧ body.count sep = k
        ∧ join sep ((split sep s).take (k + 1)) = body := by
  induction s with
  | nil => intro k h; simp [split, splitBy] at h
  | cons c t ih =>
    intro k h
    unfold split at ih h ⊢
    by_cases hc : c = sep
    · simp only [splitBy, hc, decide_True, if_true, List.length_cons, List.take_succ_cons] at h ⊢
      cases k with
      | zero => exact ⟨[], t, rfl, rfl, rfl⟩
      | succ k =>
        obtain ⟨body, rest, h1, h2, h3⟩ := ih k (by omega)
        refine ⟨sep :: body, rest, by rw [h1]; rfl, by simp [h2], ?_⟩
        have hne : (splitBy (fun c => decide (c = sep)) t).take (k + 1) ≠ [] := by
          have := splitBy_ne_nil (fun c => decide (c = sep)) t
          cases hs : splitBy (fun c => decide (c = sep)) t with
          | nil => exact absurd hs this
          | cons w ws => simp
        rw [join_nil_cons sep _ hne, h3]
    · obtain ⟨w, ws, h1, h2⟩ := splitBy_cons_of_not (fun c => decide (c = sep)) c t (by simp [hc])
      rw [h2] at h ⊢
      rw [h1] at ih
      obtain ⟨body, rest, h3, h4, h5⟩ := ih k (by simpa using h)
      refine ⟨c :: body, rest, by rw [h3]; rfl, ?_, ?_⟩
      · rw [List.count_cons_of_ne (Ne.symm hc), h4]
      · simp only [List.take_succ_cons] at h5 ⊢
        rw [join_cons_head, h5]

theorem summaryText_short (question : String) (h : question.toList.count ' ' ≤ 9) :
    summaryText question = question := by
  unfold summaryText
  have hl := length_split ' ' question.toList
  have h1 : ¬ (split ' ' question.toList).length > 10 := by omega
  rw [if_neg h1, List.take_of_length_le (by omega), join_split]
  apply String.ext
  simp

theorem summaryText_long (question : String) (h : 10 ≤ question.toList.count ' ') :
    ∃ body rest : String, question = body ++ " " ++ rest ∧ body.toList.count ' ' = 9
      ∧ summaryText question = body ++ "..." := by
  unfold summaryText
  have hl := length_split ' ' question.toList
  have h1 : (split ' ' question.toList).length > 10 := by omega
  obtain ⟨body, rest, h2, h3, h4⟩ := take_split ' ' question.toList 9 (by omega)
  refine ⟨String.mk body, String.mk rest, ?_, h3, ?_⟩
  · apply String.ext
    simpa using h2
  · rw [if_pos h1, h4]

theorem summaryText_eq_specSummary (question : String)
    (hws : ∀ c ∈ question.toList, isWhiteSpace c = true → c = ' ')
    (hne : [] ∉ split ' ' question.toList) :
    summaryText question = specSummary question := by
  have h1 : splitBy isWhiteSpace question.toList = split ' ' question.toList := by
    unfold split
    apply splitBy_congr
    intro c hc
    by_cases h : c = ' '
    · subst h; decide
    · have : isWhiteSpace c ≠ true := fun e => h (hws c hc e)
      simp [h, this]
  have h2 : specWords question.toList = split ' ' question.toList := by
    unfold specWords
    rw [h1, List.filter_eq_self]
    intro w hw
    have : w ≠ [] := fun e => hne (e ▸ hw)
    simp [this]
  unfold summaryText specSummary
  rw [h2]


/-! ## C3, C4, C5, C10: the history renderer -/

/-- C3 as stated fails: with the history `[{question: "A", citations: [c1]},
{question: "B", citations: []}]` the entry for `A` is rendered collapsed and the last element
is not rendered, so no rendered entry starts expanded. -/
theorem renderCitationHistory_open_counterexample :
    entriesOf (renderCitationHistory []
        (some [HistoryEntry.mk "A" "x" (some [Citation.mk "c1" "/doc#p3" 3 "..."]),
               HistoryEntry.mk "B" "y" (some [])]))
      = [Details.mk false "A" [CitationItem.mk "c1" 3 (utf16 "...") "/doc#p3"]]
    ∧ ((entriesOf (renderCitationHistory []
        (some [HistoryEntry.mk "A" "x" (some [Citation.mk "c1" "/doc#p3" 3 "..."]),
               HistoryEntry.mk "B" "y" (some [])]))).filter (fun d => d.isOpen)).length ≠ 1 := by
  decide

/-- C3 amended: for a non-empty history `init ++ [last]` every entry rendered for an element
of `init` starts collapsed, and the entry for `last` (rendered only when the citation list of
`last` is present and non-empty) starts expanded; so the number of rendered entries that
start expanded is one when the last element has citations and zero otherwise. -/
theorem renderCitationHistory_open (citationList : List PanelChild)
    (init : List HistoryEntry) (last : HistoryEntry) :
    ∃ closed : List Details, (∀ d ∈ closed, d.isOpen = false)
      ∧ entriesOf (renderCitationHistory citationList (some (init ++ [last])))
          = closed ++ (if hasCitations last = true then
              [Details.mk true (summaryText last.question) (citationItemsOf last)] else [])
      ∧ ((entriesOf (renderCitationHistory citationList (some (init ++ [last])))).filter
            (fun d => d.isOpen)).length = (if hasCitations last = true then 1 else 0) := by
  have hlast : entriesOf (renderItems (init ++ [last]).length (0 + init.length) [last])
      = (if hasCitations last = true then
          [Details.mk true (summaryText last.question) (citationItemsOf last)] else []) := by
    simp only [renderItems, hasCitations, citationItemsOf]
    cases last.citations with
    | none => simp [entriesOf]
    | some cs =>
      by_cases h0 : cs.length = 0
      · simp [h0, entriesOf]
      · simp [h0, entriesOf]
  have hclosed := renderItems_closed (init ++ [last]).length init 0 (by simp)
  have hout : entriesOf (renderCitationHistory citationList (some (init ++ [last])))
      = entriesOf (renderItems (init ++ [last]).length 0 init)
        ++ (if hasCitations last = true then
          [Details.mk true (summaryText last.question) (citationItemsOf last)] else []) := by
    rw [renderCitationHistory_nonempty citationList (init ++ [last]) (by simp),
      renderItems_append, entriesOf_append, hlast]
  refine ⟨entriesOf (renderItems (init ++ [last]).length 0 init), hclosed, hout, ?_⟩
  rw [hout, List.filter_append]
  have hnone : (entriesOf (renderItems (init ++ [last]).length 0 init)).filter
      (fun d => d.isOpen) = [] := by
    rw [List.filter_eq_nil_iff]
    intro d hd
    simp [hclosed d hd]
  rw [hnone]
  split <;> simp

/-- C4: for a non-empty history the panel holds no placeholder and exactly one disclosure
entry per history element whose citation list is present and non-empty, in history order,
each with the summary and the citation items of its element; elements whose citation list is
empty or missing give nothing. -/
theorem renderCitationHistory_entries (citationList : List PanelChild)
    (history : List HistoryEntry) (h : history ≠ []) :
    placeholdersOf (renderCitationHistory citationList (some history)) = []
    ∧ (entriesOf (renderCitationHistory citationList (some history))).map
          (fun d => (d.summary, d.citations))
        = (history.filter hasCitations).map
            (fun item => (summaryText item.question, citationItemsOf item))
    ∧ (renderCitationHistory citationList (some history)).length
        = (history.filter hasCitations).length := by
  rw [renderCitationHistory_nonempty citationList history h]
  obtain ⟨h1, h2⟩ := renderItems_content history.length history 0
  refine ⟨h1, h2, ?_⟩
  have h3 : ∀ l : List PanelChild, l.length = (entriesOf l).length + (placeholdersOf l).length := by
    intro l
    induction l with
    | nil => rfl
    | cons x l ih => cases x <;> simp [entriesOf, placeholdersOf, ih] <;> omega
  have h4 := congrArg List.length h2
  rw [h3, h1]
  simpa using h4

/-- C4, the example of the specification: the history `[{question: "A", citations: []},
{question: "B", citations: [c1]}]` gives exactly one entry, the one for `B`, and it starts
expanded. -/
theorem renderCitationHistory_entries_witness :
    placeholdersOf (renderCitationHistory []
        (some [HistoryEntry.mk "A" "x" (some []),
               HistoryEntry.mk "B" "y" (some [Citation.mk "c1" "/doc#p3" 3 "..."])])) = []
    ∧ (entriesOf (renderCitationHistory []
        (some [HistoryEntry.mk "A" "x" (some []),
               HistoryEntry.mk "B" "y" (some [Citation.mk "c1" "/doc#p3" 3 "..."])]))).map
          (fun d => (d.summary, d.citations))
        = [("B", [CitationItem.mk "c1" 3 (utf16 "...") "/doc#p3"])]
    ∧ renderCitationHistory []
        (some [HistoryEntry.mk "A" "x" (some []),
               HistoryEntry.mk "B" "y" (some [Citation.mk "c1" "/doc#p3" 3 "..."])])
        = [PanelChild.details (Details.mk true "B" [CitationItem.mk "c1" 3 (utf16 "...") "/doc#p3"])] :=
  ⟨(renderCitationHistory_entries []
      [HistoryEntry.mk "A" "x" (some []),
       HistoryEntry.mk "B" "y" (some [Citation.mk "c1" "/doc#p3" 3 "..."])] (by decide)).1,
   (renderCitationHistory_entries []
      [HistoryEntry.mk "A" "x" (some []),
       HistoryEntry.mk "B" "y" (some [Citation.mk "c1" "/doc#p3" 3 "..."])] (by decide)).2.1.trans
     (by decide),
   by decide⟩

/-- C5 as stated fails: the question `a  b c d e f g h i j` (two spaces after `a`) has 10
white-space-separated words, yet the summary drops the last word and ends in `...`; the
summary the specification words is the 10 words with no ellipsis. -/
theorem summaryText_counterexample :
    (specWords "a  b c d e f g h i j".toList).length = 10
    ∧ specSummary "a  b c d e f g h i j" = "a b c d e f g h i j"
    ∧ entriesOf (renderCitationHistory []
        (some [HistoryEntry.mk "a  b c d e f g h i j" "x"
          (some [Citation.mk "c1" "/doc#p3" 3 "..."])]))
      = [Details.mk true "a  b c d e f g h i..." [CitationItem.mk "c1" 3 (utf16 "...") "/doc#p3"]]
    ∧ summaryText "a  b c d e f g h i j" ≠ specSummary "a  b c d e f g h i j" := by
  decide

/-- C5 amended: the summary of every rendered entry is `summaryText` of its question, which
cuts the question at single space characters only.  A question with at most 9 spaces is
shown unchanged with no ellipsis; a question with at least 10 spaces is cut before its 10th
space and `...` is appended.  When the only white space of the question is single spaces
with a non-empty word on either side, this is the summary the specification words. -/
theorem renderCitationHistory_summary (citationList : List PanelChild)
    (history : List HistoryEntry) :
    (entriesOf (renderCitationHistory citationList (some history))).map (fun d => d.summary)
        = (history.filter hasCitations).map (fun item => summaryText item.question)
    ∧ ∀ question : String,
        (question.toList.count ' ' ≤ 9 → summaryText question = question)
        ∧ (10 ≤ question.toList.count ' ' →
            ∃ body rest : String, question = body ++ " " ++ rest
              ∧ body.toList.count ' ' = 9 ∧ summaryText question = body ++ "...")
        ∧ ((∀ c ∈ question.toList, isWhiteSpace c = true → c = ' ') →
            [] ∉ split ' ' question.toList → summaryText question = specSummary question) := by
  refine ⟨?_, fun question => ⟨summaryText_short question, summaryText_long question,
    summaryText_eq_specSummary question⟩⟩
  by_cases h : history = []
  · subst h
    simp [renderCitationHistory, clearPanel, entriesOf]
  · rw [renderCitationHistory_nonempty citationList history h]
    have := (renderItems_content history.length history 0).2
    have h2 := congrArg (List.map Prod.fst) this
    simpa [List.map_map, Function.comp_def] using h2

/-- C5 amended, at concrete questions: three words are shown unchanged, and twelve words are
cut after the tenth. -/
theorem renderCitationHistory_summary_witness :
    summaryText "what is sas" = "what is sas"
    ∧ (∃ body rest : String, "a b c d e f g h i j k l" = body ++ " " ++ rest
        ∧ body.toList.count ' ' = 9 ∧ summaryText "a b c d e f g h i j k l" = body ++ "...")
    ∧ summaryText "a b c d e f g h i j k l" = "a b c d e f g h i j..."
    ∧ summaryText "what is sas" = specSummary "what is sas" :=
  ⟨((renderCitationHistory_summary [] []).2 "what is sas").1 (by decide),
   ((renderCitationHistory_summary [] []).2 "a b c d e f g h i j k l").2.1 (by decide),
   by decide,
   ((renderCitationHistory_summary [] []).2 "what is sas").2.2 (by decide) (by decide)⟩

/-- C10: given an empty or an absent history, whatever the panel held before, the panel holds
exactly one child afterwards, the placeholder line, and no disclosure entry. -/
theorem renderCitationHistory_empty (citationList : List PanelChild) :
    renderCitationHistory citationList (some [])
        = [PanelChild.noHistory "Ask a question to see relevant citations."]
    ∧ renderCitationHistory citationList none
        = [PanelChild.noHistory "Ask a question to see relevant citations."]
    ∧ entriesOf (renderCitationHistory citationList (some [])) = []
    ∧ entriesOf (renderCitationHistory citationList none) = []
    ∧ (placeholdersOf (renderCitationHistory citationList (some []))).length = 1
    ∧ (placeholdersOf (renderCitationHistory citationList none)).length = 1 := by
  simp [renderCitationHistory, clearPanel, entriesOf, placeholdersOf]

/-! ## C6, C7, C8: the embedding mode controller and its wiring -/

theorem removeById_of_absent (id : String) (l : List FeedItem)
    (h : ∀ x ∈ l, x.id ≠ some id) : removeById id l = l := by
  induction l with
  | nil => rfl
  | cons x l ih =>
    have hx : x.id ≠ some id := h x (by simp)
    simp only [removeById, if_neg hx]
    rw [ih (fun y hy => h y (by simp [hy]))]

theorem removeById_append_status (l : List FeedItem) (text : String)
    (h : ∀ x ∈ l, x.id ≠ some "status-message") :
    removeById "status-message" (l ++ [FeedItem.status text]) = l := by
  induction l with
  | nil => simp [removeById, FeedItem.id]
  | cons x l ih =>
    have hx : x.id ≠ some "status-message" := h x (by simp)
    simp only [List.cons_append, removeById, if_neg hx]
    exact congrArg (fun r => x :: r) (ih (fun y hy => h y (by simp [hy])))

theorem modeShown_decide (m : String) (h : IsEmbeddingMode m) :
    modeShown (decide (m = "openai")) = m := by
  rcases h with rfl | rfl <;> decide

theorem updateEmbeddingTypeStart_eq (s : State) (t : Toggle) :
    updateEmbeddingTypeStart s t =
      if modeShown (checkedOf s t) = s.currentEmbeddingType then (syncToggles s t, false)
      else
        ({ syncToggles s t with
            chatMessages := s.chatMessages ++
              [FeedItem.status ("Switching to " ++
                (if modeShown (checkedOf s t) = "tfidf" then "TF-IDF" else "OpenAI")
                ++ " embeddings...")],
            requests := s.requests ++ [Request.toggleEmbeddings (modeShown (checkedOf s t))] },
          true) := by
  cases t <;> simp [updateEmbeddingTypeStart, syncToggles, updateToggleLabels, modeShown]

theorem syncToggles_eq (s : State) (t : Toggle) :
    syncToggles s t =
      { s with
        embeddingToggleDesktop := checkedOf s t,
        embeddingToggleMobile := checkedOf s t,
        desktopToggleOptions := s.desktopToggleOptions.map
          (fun opt => { opt with active := decide (opt.value = modeShown (checkedOf s t)) }),
        mobileToggleOptions := s.mobileToggleOptions.map
          (fun opt => { opt with active := decide (opt.value = modeShown (checkedOf s t)) }) } := by
  cases t <;> simp [syncToggles, updateToggleLabels, modeShown, checkedOf]

theorem syncToggles_inSync (s : State) (t : Toggle) : InSync (syncToggles s t) := by
  rw [syncToggles_eq]
  refine ⟨rfl, ?_⟩
  intro opt hopt
  simp only [List.mem_append, List.mem_map] at hopt
  rcases hopt with ⟨o, -, rfl⟩ | ⟨o, -, rfl⟩ <;> rfl

theorem updateEmbeddingTypeStart_inSync (s : State) (t : Toggle) :
    InSync (updateEmbeddingTypeStart s t).1 := by
  have h := syncToggles_inSync s t
  rw [updateEmbeddingTypeStart_eq]
  split
  · exact h
  · exact h

/-- C6: a call of `updateEmbeddingType` that asks for another mode than the confirmed one and
whose toggle call fails (an error is thrown, the status is not OK, or the success flag is
false), made while the feed holds no status message of an earlier call, leaves
`currentEmbeddingType` unchanged, leaves both controls checked exactly when the confirmed
mode is `openai` and the labels of both groups marked by the confirmed mode, and leaves the
feed as it was plus exactly one error message (the transient status message is gone). -/
theorem updateEmbeddingType_failed (s : State) (t : Toggle) (o : ToggleOutcome)
    (hreq : modeShown (checkedOf s t) ≠ s.currentEmbeddingType)
    (hfail : o.failed = true)
    (hfeed : ∀ x ∈ s.chatMessages, x.id ≠ some "status-message") :
    (updateEmbeddingType s t o).currentEmbeddingType = s.currentEmbeddingType
    ∧ (updateEmbeddingType s t o).embeddingToggleDesktop
        = decide (s.currentEmbeddingType = "openai")
    ∧ (updateEmbeddingType s t o).embeddingToggleMobile
        = decide (s.currentEmbeddingType = "openai")
    ∧ (updateEmbeddingType s t o).desktopToggleOptions = s.desktopToggleOptions.map
        (fun opt => ToggleOption.mk opt.value (decide (opt.value = s.currentEmbeddingType)))
    ∧ (updateEmbeddingType s t o).mobileToggleOptions = s.mobileToggleOptions.map
        (fun opt => ToggleOption.mk opt.value (decide (opt.value = s.currentEmbeddingType)))
    ∧ (updateEmbeddingType s t o).chatMessages
        = s.chatMessages ++ [FeedItem.message ("Error: " ++ o.errorMessage) false none none]
    ∧ (updateEmbeddingType s t o).requests
        = s.requests ++ [Request.toggleEmbeddings (modeShown (checkedOf s t))]
    ∧ (IsEmbeddingMode s.currentEmbeddingType →
        modeShown (updateEmbeddingType s t o).embeddingToggleDesktop = s.currentEmbeddingType
        ∧ InSync (updateEmbeddingType s t o)) := by
  have hrm := removeById_append_status s.chatMessages
    ("Switching to " ++ (if modeShown (checkedOf s t) = "tfidf" then "TF-IDF" else "OpenAI")
      ++ " embeddings...") hfeed
  have hrm2 := removeById_of_absent "status-message" s.chatMessages hfeed
  have hcore : updateEmbeddingType s t o =
      { s with
        embeddingToggleDesktop := decide (s.currentEmbeddingType = "openai"),
        embeddingToggleMobile := decide (s.currentEmbeddingType = "openai"),
        desktopToggleOptions := s.desktopToggleOptions.map
          (fun opt => ToggleOption.mk opt.value (decide (opt.value = s.currentEmbeddingType))),
        mobileToggleOptions := s.mobileToggleOptions.map
          (fun opt => ToggleOption.mk opt.value (decide (opt.value = s.currentEmbeddingType))),
        chatMessages :=
          s.chatMessages ++ [FeedItem.message ("Error: " ++ o.errorMessage) false none none],
        requests := s.requests ++ [Request.toggleEmbeddings (modeShown (checkedOf s t))] } := by
    unfold updateEmbeddingType
    rw [updateEmbeddingTypeStart_eq, if_neg hreq, syncToggles_eq]
    cases o with
    | thrown message =>
      simp [updateEmbeddingTypeResume, updateEmbeddingTypeCatch, addMessage, updateToggleLabels,
        hrm, ToggleOutcome.errorMessage, Function.comp_def]
    | response ok statusText data =>
      have hf : (!ok || !data.success) = true := hfail
      simp [updateEmbeddingTypeResume, hf, updateEmbeddingTypeCatch, addMessage,
        updateToggleLabels, hrm, hrm2, ToggleOutcome.errorMessage, Function.comp_def]
  rw [hcore]
  refine ⟨rfl, rfl, rfl, rfl, rfl, rfl, rfl, fun hm => ⟨modeShown_decide _ hm, rfl, ?_⟩⟩
  intro opt hopt
  simp only [List.mem_append, List.mem_map] at hopt
  rw [modeShown_decide _ hm]
  rcases hopt with ⟨x, -, rfl⟩ | ⟨x, -, rfl⟩ <;> rfl

/-- C6 at a concrete state: confirmed mode `openai`, the user has unchecked the desktop
control, and the request fails with a network error. -/
theorem updateEmbeddingType_failed_witness :
    (updateEmbeddingType
      (userSets (State.initial true true
        [ToggleOption.mk "openai" true, ToggleOption.mk "tfidf" false]
        [ToggleOption.mk "openai" true, ToggleOption.mk "tfidf" false] [] "") Toggle.desktop false)
      Toggle.desktop (ToggleOutcome.thrown "Failed to fetch")).chatMessages
      = [FeedItem.message "Error: Failed to fetch" false none none]
    ∧ (updateEmbeddingType
      (userSets (State.initial true true
        [ToggleOption.mk "openai" true, ToggleOption.mk "tfidf" false]
        [ToggleOption.mk "openai" true, ToggleOption.mk "tfidf" false] [] "") Toggle.desktop false)
      Toggle.desktop (ToggleOutcome.thrown "Failed to fetch")).embeddingToggleDesktop = true :=
  ⟨(updateEmbeddingType_failed
      (userSets (State.initial true true
        [ToggleOption.mk "openai" true, ToggleOption.mk "tfidf" false]
        [ToggleOption.mk "openai" true, ToggleOption.mk "tfidf" false] [] "") Toggle.desktop false)
      Toggle.desktop (ToggleOutcome.thrown "Failed to fetch")
      (by decide) (by decide) (by decide)).2.2.2.2.2.1,
   by decide⟩

/-- C7: when the mode the source toggle asks for is the confirmed mode, a call of
`updateEmbeddingType` makes no request, appends nothing to the feed and leaves
`currentEmbeddingType` unchanged: the state afterwards is the state before with the checked
value of the source toggle in both controls and the labels marked by that mode. -/
theorem updateEmbeddingType_same_mode (s : State) (t : Toggle) (o : ToggleOutcome)
    (h : modeShown (checkedOf s t) = s.currentEmbeddingType) :
    (updateEmbeddingTypeStart s t).2 = false
    ∧ updateEmbeddingType s t o =
      { s with
        embeddingToggleDesktop := checkedOf s t,
        embeddingToggleMobile := checkedOf s t,
        desktopToggleOptions := s.desktopToggleOptions.map
          (fun opt => ToggleOption.mk opt.value (decide (opt.value = modeShown (checkedOf s t)))),
        mobileToggleOptions := s.mobileToggleOptions.map
          (fun opt => ToggleOption.mk opt.value (decide (opt.value = modeShown (checkedOf s t)))) }
    ∧ (updateEmbeddingType s t o).requests = s.requests
    ∧ (updateEmbeddingType s t o).chatMessages = s.chatMessages
    ∧ (updateEmbeddingType s t o).currentEmbeddingType = s.currentEmbeddingType := by
  have hcore : updateEmbeddingType s t o = syncToggles s t := by
    unfold updateEmbeddingType
    rw [updateEmbeddingTypeStart_eq, if_pos h]
  have hstart : (updateEmbeddingTypeStart s t).2 = false := by
    rw [updateEmbeddingTypeStart_eq, if_pos h]
  rw [hcore, syncToggles_eq]
  exact ⟨hstart, rfl, rfl, rfl, rfl⟩

/-- C7 at a concrete state: confirmed mode `openai`, mobile control checked by the user while
the desktop control is unchecked. -/
theorem updateEmbeddingType_same_mode_witness :
    (updateEmbeddingType
      (State.initial false true
        [ToggleOption.mk "openai" false, ToggleOption.mk "tfidf" true]
        [ToggleOption.mk "openai" false, ToggleOption.mk "tfidf" true] [] "")
      Toggle.mobile (ToggleOutcome.thrown "unused")).requests = []
    ∧ (updateEmbeddingType
      (State.initial false true
        [ToggleOption.mk "openai" false, ToggleOption.mk "tfidf" true]
        [ToggleOption.mk "openai" false, ToggleOption.mk "tfidf" true] [] "")
      Toggle.mobile (ToggleOutcome.thrown "unused")).embeddingToggleDesktop = true :=
  ⟨(updateEmbeddingType_same_mode
      (State.initial false true
        [ToggleOption.mk "openai" false, ToggleOption.mk "tfidf" true]
        [ToggleOption.mk "openai" false, ToggleOption.mk "tfidf" true] [] "")
      Toggle.mobile (ToggleOutcome.thrown "unused") (by decide)).2.2.1,
   by decide⟩

/-- C8 fails on the page as the script wires it.  The page is loaded with both toggles
checked and the label `openai` active in both groups; the user unchecks the desktop toggle.
No listener is registered for the `change` event, so nothing runs: the desktop control is
unchecked, the mobile control is still checked, the labels still mark `openai`, no request
is made, and the controls are out of sync.  The function `updateEmbeddingType`, had it been
called on that state as the comments of the script say, brings the controls and the labels
back into agreement before its first `await`. -/
theorem dispatchEvent_toggleChange_out_of_sync :
    (∀ o : ChatOutcome,
      dispatchEvent
        (userSets (State.initial true true
          [ToggleOption.mk "openai" true, ToggleOption.mk "tfidf" false]
          [ToggleOption.mk "openai" true, ToggleOption.mk "tfidf" false] [] "")
          Toggle.desktop false)
        (PageEvent.toggleChange Toggle.desktop) o
      = { State.initial true true
          [ToggleOption.mk "openai" true, ToggleOption.mk "tfidf" false]
          [ToggleOption.mk "openai" true, ToggleOption.mk "tfidf" false] [] ""
          with embeddingToggleDesktop := false })
    ∧ (userSets (State.initial true true
          [ToggleOption.mk "openai" true, ToggleOption.mk "tfidf" false]
          [ToggleOption.mk "openai" true, ToggleOption.mk "tfidf" false] [] "")
          Toggle.desktop false).embeddingToggleDesktop = false
    ∧ (userSets (State.initial true true
          [ToggleOption.mk "openai" true, ToggleOption.mk "tfidf" false]
          [ToggleOption.mk "openai" true, ToggleOption.mk "tfidf" false] [] "")
          Toggle.desktop false).embeddingToggleMobile = true
    ∧ ¬ InSync (dispatchEvent
        (userSets (State.initial true true
          [ToggleOption.mk "openai" true, ToggleOption.mk "tfidf" false]
          [ToggleOption.mk "openai" true, ToggleOption.mk "tfidf" false] [] "")
          Toggle.desktop false)
        (PageEvent.toggleChange Toggle.desktop) (ChatOutcome.thrown ""))
    ∧ InSync (updateEmbeddingTypeStart
        (userSets (State.initial true true
          [ToggleOption.mk "openai" true, ToggleOption.mk "tfidf" false]
          [ToggleOption.mk "openai" true, ToggleOption.mk "tfidf" false] [] "")
          Toggle.desktop false)
        Toggle.desktop).1 := by
  refine ⟨fun _ => rfl, rfl, rfl, by decide, updateEmbeddingTypeStart_inSync _ _⟩

/-! ## C9: chat submission -/

/-- C9: a call of `handleSubmit` keeps the former contents of `qaCitationHistory` and of
`chatHistory` as a beginning of the new contents.  With empty or white-space-only input the
state is unchanged (no message, no request).  Otherwise, on an OK response
`qaCitationHistory` grows by the one entry of the trimmed message, the raw answer and the
citations of the response, and `chatHistory` grows by the user turn and the assistant turn
with the raw answer; on a failed request both histories are unchanged. -/
theorem handleSubmit_histories (s : State) (o : ChatOutcome) :
    (∃ t, (handleSubmit s o).qaCitationHistory = s.qaCitationHistory ++ t)
    ∧ (∃ t, (handleSubmit s o).chatHistory = s.chatHistory ++ t)
    ∧ (trim s.userInput = "" →
        handleSubmit s o = s ∧ (handleSubmitStart s).2 = none)
    ∧ (trim s.userInput ≠ "" → ∀ data : ChatData, o = ChatOutcome.ok data →
        (handleSubmit s o).qaCitationHistory = s.qaCitationHistory ++
          [HistoryEntry.mk (trim s.userInput) data.answer (some data.citations)]
        ∧ (handleSubmit s o).chatHistory = s.chatHistory ++
          [ChatTurn.mk "user" (trim s.userInput), ChatTurn.mk "assistant" data.answer])
    ∧ (trim s.userInput ≠ "" → o.failed = true →
        (handleSubmit s o).qaCitationHistory = s.qaCitationHistory
        ∧ (handleSubmit s o).chatHistory = s.chatHistory
        ∧ (handleSubmit s o).requests = s.requests ++
          [Request.chat (trim s.userInput) s.chatHistory s.currentEmbeddingType]) := by
  by_cases h : trim s.userInput = ""
  · have hs : handleSubmit s o = s := by simp [handleSubmit, handleSubmitStart, h]
    rw [hs]
    exact ⟨⟨[], by simp⟩, ⟨[], by simp⟩, fun _ => ⟨rfl, by simp [handleSubmitStart, h]⟩,
      fun hne => absurd h hne, fun hne => absurd h hne⟩
  · cases o with
    | thrown m =>
      have hq : (handleSubmit s (ChatOutcome.thrown m)).qaCitationHistory = s.qaCitationHistory := by
        simp [handleSubmit, handleSubmitStart, h, handleSubmitResume, handleSubmitCatch,
          addMessage, removeLoading, showLoading]
      have hc : (handleSubmit s (ChatOutcome.thrown m)).chatHistory = s.chatHistory := by
        simp [handleSubmit, handleSubmitStart, h, handleSubmitResume, handleSubmitCatch,
          addMessage, removeLoading, showLoading]
      have hr : (handleSubmit s (ChatOutcome.thrown m)).requests = s.requests ++
          [Request.chat (trim s.userInput) s.chatHistory s.currentEmbeddingType] := by
        simp [handleSubmit, handleSubmitStart, h, handleSubmitResume, handleSubmitCatch,
          addMessage, removeLoading, showLoading]
      refine ⟨⟨[], by simp [hq]⟩, ⟨[], by simp [hc]⟩, fun he => absurd he h, ?_,
        fun _ _ => ⟨hq, hc, hr⟩⟩
      intro _ _ hd
      cases hd
    | notOk detail statusText =>
      have hq : (handleSubmit s (ChatOutcome.notOk detail statusText)).qaCitationHistory
          = s.qaCitationHistory := by
        simp [handleSubmit, handleSubmitStart, h, handleSubmitResume, handleSubmitCatch,
          addMessage, removeLoading, showLoading]
      have hc : (handleSubmit s (ChatOutcome.notOk detail statusText)).chatHistory
          = s.chatHistory := by
        simp [handleSubmit, handleSubmitStart, h, handleSubmitResume, handleSubmitCatch,
          addMessage, removeLoading, showLoading]
      have hr : (handleSubmit s (ChatOutcome.notOk detail statusText)).requests = s.requests ++
          [Request.chat (trim s.userInput) s.chatHistory s.currentEmbeddingType] := by
        simp [handleSubmit, handleSubmitStart, h, handleSubmitResume, handleSubmitCatch,
          addMessage, removeLoading, showLoading]
      refine ⟨⟨[], by simp [hq]⟩, ⟨[], by simp [hc]⟩, fun he => absurd he h, ?_,
        fun _ _ => ⟨hq, hc, hr⟩⟩
      intro _ _ hd
      cases hd
    | ok data =>
      have hq : (handleSubmit s (ChatOutcome.ok data)).qaCitationHistory = s.qaCitationHistory ++
          [HistoryEntry.mk (trim s.userInput) data.answer (some data.citations)] := by
        simp [handleSubmit, handleSubmitStart, h, handleSubmitResume, addMessage, removeLoading,
          showLoading]
      have hc : (handleSubmit s (ChatOutcome.ok data)).chatHistory = s.chatHistory ++
          [ChatTurn.mk "user" (trim s.userInput), ChatTurn.mk "assistant" data.answer] := by
        simp [handleSubmit, handleSubmitStart, h, handleSubmitResume, addMessage, removeLoading,
          showLoading]
      refine ⟨⟨_, hq⟩, ⟨_, hc⟩, fun he => absurd he h, ?_, ?_⟩
      · intro _ d hd
        cases hd
        exact ⟨hq, hc⟩
      · intro _ hf
        cases hf

/-- C9 at concrete inputs: white-space-only input changes nothing, and a question answered
with a marker is recorded with the raw answer. -/
theorem handleSubmit_histories_witness :
    handleSubmit (State.initial true true [] [] [] " \n ") (ChatOutcome.thrown "x")
      = State.initial true true [] [] [] " \n "
    ∧ (handleSubmit (State.initial true true [] [] [] " hi ")
        (ChatOutcome.ok (ChatData.mk "Yes[citation1]." [Citation.mk "c1" "/doc#p3" 3 "..."]
          "openai" none))).chatHistory
      = [ChatTurn.mk "user" "hi", ChatTurn.mk "assistant" "Yes[citation1]."] :=
  ⟨((handleSubmit_histories (State.initial true true [] [] [] " \n ")
      (ChatOutcome.thrown "x")).2.2.1 (by decide)).1,
   ((handleSubmit_histories (State.initial true true [] [] [] " hi ")
      (ChatOutcome.ok (ChatData.mk "Yes[citation1]." [Citation.mk "c1" "/doc#p3" 3 "..."]
        "openai" none))).2.2.2.1 (by decide) _ rfl).2⟩

end SasGPT
